import Mathlib

/-!
Verification of the buchfink portfolio aggregation and reporting code
(src/buchfink/cli.py and src/buchfink/db.py) against its specification.

The embedding below mirrors the source:
- python dicts keyed by assets become insertion-ordered association lists
  (an existing key keeps its position, a new key is appended at the end),
- FVal (arbitrary precision decimal) amounts become rationals,
- results of external collaborator calls (exchange APIs, chain managers,
  the price inquirer, the accounting engine) become explicit data
  parameters, since those collaborators live outside this repository,
- python exceptions become Except values: a helper that raises is
  embedded as a function into Except, and a caller without a handler
  propagates the error, aborting the rest of its loop.
-/

namespace Buchfink

/-- Assets are identified by an interned symbol; equality is by identifier. -/
abbrev Asset := String

/-- Insertion-ordered association list standing for a python dict of FVal. -/
abbrev Entries := List (Asset × ℚ)

/-- Dict lookup, as in python d.get(k). -/
def lookupQ (m : Entries) (a : Asset) : Option ℚ :=
  match m with
  | [] => none
  | (k, v) :: rest => if k = a then some v else lookupQ rest a

/-- The accumulation step d[k] = d.get(k, FVal(0)) + v used by the balances
command (src/buchfink/cli.py lines 79, 81, 90, 91, 100, 101, 111, 112).
An existing key keeps its position; a new key is appended at the end,
matching python dict insertion order. -/
def upsertAdd (m : Entries) (k : Asset) (v : ℚ) : Entries :=
  match m with
  | [] => [(k, v)]
  | (k0, v0) :: rest => if k0 = k then (k0, v0 + v) :: rest else (k0, v0) :: upsertAdd rest k v

/-- Fold a list of (asset, quantity) contributions into a dict via upsertAdd. -/
def addAmounts (m : Entries) (entries : Entries) : Entries :=
  entries.foldl (fun acc e => upsertAdd acc e.1 e.2) m

/-- The keys of a dict, in insertion order. -/
def keysQ (m : Entries) : List Asset := m.map Prod.fst

/-- Sum of the contributions recorded for one asset. -/
def sumFor (a : Asset) : Entries → ℚ
  | [] => 0
  | e :: rest => if e.1 = a then e.2 + sumFor a rest else sumFor a rest

/-- Sum of all values stored in a dict. -/
def sumValues (m : Entries) : ℚ := (m.map Prod.snd).sum

/-- One balance entry returned by exchange.query_balances: the amount is
always present, the usd_value key may be missing (the membership test on
line 80 of src/buchfink/cli.py), which is how a failed pricing for that
asset surfaces to the balances command. -/
structure ExchangeBalance where
  amount : ℚ
  usdValue : Option ℚ
deriving DecidableEq

/-- One account as seen by the balances command loop
(src/buchfink/cli.py lines 60-112), with the results of the external
queries inlined as data:
- exchange: the validate_api_key result, whether query_balances returned
  an error, and the returned balance map;
- ethereum: the flattened (asset, amount, usd_value) entries of
  manager.balances.eth after query_balances;
- bitcoin: the per-address (amount, usd_value) entries of
  manager.balances.btc, all booked under the BTC asset;
- file: the parsed yaml document, none when it has no balances key,
  otherwise its (asset, amount) entries; usd values are computed with the
  inquirer price.
This type is the shape of the loop body data once every raising external
call has succeeded; the chain-manager queries and the file open can also
raise, which AccountOutcome below makes explicit, and
aggregateExc_ofAccount proves that aggregate is exactly the run in which
no call raised. -/
inductive Account where
  | exchange (name : String) (apiKeyValid : Bool) (queryError : Bool)
      (balances : List (Asset × ExchangeBalance))
  | ethereum (name : String) (balances : List (Asset × ℚ × ℚ))
  | bitcoin (name : String) (balances : List (ℚ × ℚ))
  | file (name : String) (doc : Option (List (Asset × ℚ)))
deriving DecidableEq

/-- The pair of accumulators (balances_sum, usd_value_sum) of the balances
command (src/buchfink/cli.py lines 57-58). -/
abbrev Sums := Entries × Entries

/-- The body of the account loop of the balances command
(src/buchfink/cli.py lines 60-112). An exchange account whose api key is
invalid, or whose query returned an error, contributes nothing and the
loop moves on (lines 69-71 and 75). -/
def processAccount (price : Asset → ℚ) (s : Sums) : Account → Sums
  | .exchange _ apiKeyValid queryError bs =>
      if apiKeyValid then
        if queryError then s
        else bs.foldl (fun t e =>
          (upsertAdd t.1 e.1 e.2.amount,
           match e.2.usdValue with
           | some v => upsertAdd t.2 e.1 v
           | none => t.2)) s
      else s
  | .ethereum _ bs =>
      bs.foldl (fun t e => (upsertAdd t.1 e.1 e.2.1, upsertAdd t.2 e.1 e.2.2)) s
  | .bitcoin _ bs =>
      bs.foldl (fun t e => (upsertAdd t.1 "BTC" e.1, upsertAdd t.2 "BTC" e.2)) s
  | .file _ doc =>
      match doc with
      | none => s
      | some entries =>
          entries.foldl (fun t e => (upsertAdd t.1 e.1 e.2, upsertAdd t.2 e.1 (e.2 * price e.1))) s

/-- The full accumulation phase of the balances command over all accounts. -/
def aggregate (price : Asset → ℚ) (accounts : List Account) : Sums :=
  accounts.foldl (processAccount price) ([], [])

/-- The (asset, amount) contributions one account makes to balances_sum. -/
def balContribs : Account → Entries
  | .exchange _ apiKeyValid queryError bs =>
      if apiKeyValid && !queryError then bs.map (fun e => (e.1, e.2.amount)) else []
  | .ethereum _ bs => bs.map (fun e => (e.1, e.2.1))
  | .bitcoin _ bs => bs.map (fun e => ("BTC", e.1))
  | .file _ doc => doc.getD []

/-- The (asset, usd value) contributions one account makes to usd_value_sum. -/
def usdContribs (price : Asset → ℚ) : Account → Entries
  | .exchange _ apiKeyValid queryError bs =>
      if apiKeyValid && !queryError then
        bs.filterMap (fun e => e.2.usdValue.map (fun u => (e.1, u)))
      else []
  | .ethereum _ bs => bs.map (fun e => (e.1, e.2.2))
  | .bitcoin _ bs => bs.map (fun e => ("BTC", e.2))
  | .file _ doc => (doc.getD []).map (fun e => (e.1, e.2 * price e.1))

/-- Concatenation of the contributions of a list of accounts. -/
def contribsOf (f : Account → Entries) : List Account → Entries
  | [] => []
  | a :: rest => f a ++ contribsOf f rest

/-- Value-descending comparison on dict items, the key function
itemgetter(1) with reverse=True of line 118 of src/buchfink/cli.py. -/
def valGe (p q : Asset × ℚ) : Prop := q.2 ≤ p.2

instance : DecidableRel valGe := fun p q => inferInstanceAs (Decidable (q.2 ≤ p.2))

instance : IsTotal (Asset × ℚ) valGe := ⟨fun p q => le_total q.2 p.2⟩

instance : IsTrans (Asset × ℚ) valGe := ⟨fun _ _ _ hab hbc => le_trans hbc hab⟩

/-- sorted(usd_value_sum.items(), key=itemgetter(1), reverse=True)
(src/buchfink/cli.py line 118). Python sorted is stable, so items with
equal values keep their insertion order; insertion sort with a
not-strictly-smaller test realizes exactly that stable order. -/
def sortByValueDesc (l : Entries) : Entries := List.insertionSort valGe l

/-- One row of the printed table: asset, amount (none for the synthetic
Total row) and the value in reporting currency. The asset symbol column
and the display rounding of line 125 are presentation only and carry no
extra information. -/
structure Row where
  asset : Asset
  amount : Option ℚ
  value : ℚ
deriving DecidableEq

/-- The table-building phase of the balances command
(src/buchfink/cli.py lines 117-126): rows are generated from the keys of
usd_value_sum sorted by value descending, each row shows the accumulated
amount and the usd value divided by the reporting-currency rate, and a
synthetic Total row with the running sum is appended last. -/
def buildTable (rate : ℚ) (s : Sums) : List Row :=
  let assets := (sortByValueDesc s.2).map Prod.fst
  let rows := assets.map (fun a =>
    { asset := a
      amount := some ((lookupQ s.1 a).getD 0)
      value := (lookupQ s.2 a).getD 0 / rate })
  rows ++ [{ asset := "Total", amount := none,
             value := rows.foldl (fun acc r => acc + r.value) 0 }]

/-- The whole balances command (src/buchfink/cli.py lines 51-127):
accumulate across accounts, then build the printed table. -/
def balancesTable (price : Asset → ℚ) (rate : ℚ) (accounts : List Account) : List Row :=
  buildTable rate (aggregate price accounts)

/-- The row ordering stated by the specification: value descending with
ties broken by ascending asset identifier. Stated from the words of the
spec for comparison against the ordering the code produces. -/
def specTieBreakOrder (rows : List Row) : Prop :=
  List.Chain' (fun r1 r2 => r2.value < r1.value ∨ (r1.value = r2.value ∧ r1.asset < r2.asset)) rows

/-- Trade side, rotki TradeType. -/
inductive TradeType where
  | buy
  | sell
deriving DecidableEq

/-- An exact decimal number mant * 10 ^ (- exp10), the value denoted by a
decimal string; used so that no precision is lost in serialization. -/
structure Dec where
  mant : Int
  exp10 : Nat
deriving DecidableEq

/-- A trade record as in the spec data model: timestamp, pair, side,
amount, rate, fee and fee currency, all amounts exact decimals. -/
structure Trade where
  timestamp : Nat
  baseAsset : String
  quoteAsset : String
  tradeType : TradeType
  amount : Dec
  rate : Dec
  fee : Dec
  feeCurrency : String
deriving DecidableEq

/-- The serialized form of a trade inside a ledger yaml file: the side is
a string, symbols are strings, numbers are exact decimal strings. -/
structure SerializedTrade where
  timestamp : Nat
  baseAsset : String
  quoteAsset : String
  tradeType : String
  amount : Dec
  rate : Dec
  fee : Dec
  feeCurrency : String
deriving DecidableEq

/-- Modelled from the spec: serialization of the trade side, part of
buchfink/serialization.py which is not under src. -/
def serializeTradeType : TradeType → String
  | .buy => "buy"
  | .sell => "sell"

/-- Modelled from the spec: serialize_trade from buchfink/serialization.py
is not under src; per section 6 of the spec, a serialized trade carries
asset symbols as strings, the timestamp as epoch seconds, and amounts as
decimal strings, losing no precision. -/
def serializeTrade (t : Trade) : SerializedTrade :=
  ⟨t.timestamp, t.baseAsset, t.quoteAsset, serializeTradeType t.tradeType,
   t.amount, t.rate, t.fee, t.feeCurrency⟩

/-- Modelled from the spec: serialize_trades from
buchfink/serialization.py, serializing a whole ledger in order. -/
def serializeTrades (ts : List Trade) : List SerializedTrade := ts.map serializeTrade

/-- Modelled from the spec: parsing of the serialized trade side; an
unknown side is a deserialization error. -/
def deserializeTradeType (s : String) : Except String TradeType :=
  if s = "buy" then .ok .buy
  else if s = "sell" then .ok .sell
  else .error ("DeserializationError: unknown trade type " ++ s)

/-- Modelled from the spec: deserialize_trade from
buchfink/serialization.py, inverse of serialize_trade. -/
def deserializeTrade (s : SerializedTrade) : Except String Trade :=
  match deserializeTradeType s.tradeType with
  | .error e => .error e
  | .ok tt =>
      .ok ⟨s.timestamp, s.baseAsset, s.quoteAsset, tt, s.amount, s.rate, s.fee, s.feeCurrency⟩

/-- The list comprehension [deserialize_trade(t) for t in doc] of
src/buchfink/db.py lines 163 and 168: deserialize each serialized trade
in order, a failure anywhere aborting the whole read. -/
def deserializeTrades : List SerializedTrade → Except String (List Trade)
  | [] => .ok []
  | s :: rest =>
      match deserializeTrade s with
      | .error e => .error e
      | .ok t =>
          match deserializeTrades rest with
          | .error e => .error e
          | .ok ts => .ok (t :: ts)

/-- A parsed ledger yaml document: the trades key may be absent. -/
structure YamlDoc where
  trades : Option (List SerializedTrade)
deriving DecidableEq

/-- One configured account record as read by
BuchfinkDB.get_local_trades_for_account (src/buchfink/db.py lines
156-175): exactly one variant tag per record. -/
inductive AccountInfo where
  | exchange (name : String)
  | file (name : String) (path : String)
  | ethereum (name : String) (address : String)
  | bitcoin (name : String) (address : String)
deriving DecidableEq

/-- The name of a configured account. -/
def AccountInfo.name : AccountInfo → String
  | .exchange n => n
  | .file n _ => n
  | .ethereum n _ => n
  | .bitcoin n _ => n

/-- The account lookup [a for a in accounts if a[name] == account][0] of
src/buchfink/db.py line 158: the first configured account with the given
name, none when there is no match (an IndexError in the source). -/
def findAccount (accounts : List AccountInfo) (name : String) : Option AccountInfo :=
  (accounts.filter (fun a => decide (a.name = name))).head?

/-- BuchfinkDB.get_local_trades_for_account (src/buchfink/db.py lines
156-175) over a file system modelled as a partial map from paths to
parsed yaml documents:
- exchange accounts open trades/NAME.yaml, a missing file being a raised
  FileNotFoundError, and read the trades key unconditionally, a missing
  key being a raised KeyError (lines 160-163);
- file accounts open the configured path and default a missing trades key
  to the empty list (lines 165-168);
- ethereum and bitcoin accounts return the empty list (lines 170-172). -/
def getLocalTradesForAccount (accounts : List AccountInfo) (fs : String → Option YamlDoc)
    (name : String) : Except String (List Trade) :=
  match findAccount accounts name with
  | none => .error ("IndexError: no account named " ++ name)
  | some (.exchange n) =>
      match fs ("trades/" ++ n ++ ".yaml") with
      | none => .error ("FileNotFoundError: trades/" ++ n ++ ".yaml")
      | some doc =>
          match doc.trades with
          | none => .error "KeyError: trades"
          | some ts => deserializeTrades ts
  | some (.file _ path) =>
      match fs path with
      | none => .error ("FileNotFoundError: " ++ path)
      | some doc => deserializeTrades (doc.trades.getD [])
  | some (.ethereum _ _) => .ok []
  | some (.bitcoin _ _) => .ok []

/-- The loop of the allowances command collecting local trades from every
configured account (src/buchfink/cli.py lines 226-228); an exception from
get_local_trades_for_account has no handler and aborts the command. -/
def collectFrom (config : List AccountInfo) (fs : String → Option YamlDoc) :
    List AccountInfo → Except String (List Trade)
  | [] => .ok []
  | a :: rest =>
      match getLocalTradesForAccount config fs a.name with
      | .error e => .error e
      | .ok ts =>
          match collectFrom config fs rest with
          | .error e => .error e
          | .ok more => .ok (ts ++ more)

/-- The trade collection of the allowances command across all accounts. -/
def collectAllTrades (config : List AccountInfo) (fs : String → Option YamlDoc) :
    Except String (List Trade) :=
  collectFrom config fs config

/-- The ledger write of the fetch command (src/buchfink/cli.py lines
163-164): dump a document with a trades key holding the serialized trades
to trades/NAME.yaml, replacing any prior content. -/
def saveTradesFetch (fs : String → Option YamlDoc) (name : String) (trades : List Trade) :
    String → Option YamlDoc :=
  fun p => if p = "trades/" ++ name ++ ".yaml" then some ⟨some (serializeTrades trades)⟩ else fs p

/-- One account as seen by the fetch command loop (src/buchfink/cli.py
lines 137-164), with the outcome of every external call explicit:
validate_api_key is a returned pair the loop tests and handles (lines
148-152), while query_online_trade_history (line 156) either returns
the trades or raises, and the loop has no handler for it. -/
structure FetchOutcome where
  name : String
  isExchange : Bool
  apiKeyValid : Bool
  query : Except String (List Trade)

/-- The body of the fetch loop with exception semantics: non-exchange
accounts are skipped (line 141), an exchange whose api key is invalid is
logged and skipped (lines 148-152), a raising trade query propagates
(line 156, no handler), otherwise the fetched trades are written to the
ledger file (lines 163-164). -/
def fetchStepExc (fs : String → Option YamlDoc) (a : FetchOutcome) :
    Except String (String → Option YamlDoc) :=
  if a.isExchange then
    if a.apiKeyValid then
      match a.query with
      | .error e => .error e
      | .ok trades => .ok (saveTradesFetch fs a.name trades)
    else .ok fs
  else .ok fs

/-- The whole fetch command over all configured accounts: an uncaught
exception from one account aborts the rest of the loop. -/
def fetchRunExc (fs : String → Option YamlDoc) :
    List FetchOutcome → Except String (String → Option YamlDoc)
  | [] => .ok fs
  | a :: rest =>
      match fetchStepExc fs a with
      | .error e => .error e
      | .ok fs2 => fetchRunExc fs2 rest

/-- One account of the balances loop with the outcome of every external
call explicit, including the calls that can raise. For an exchange
account, validate_api_key and query_balances return values the loop
tests and handles (src/buchfink/cli.py lines 67-75). For an ethereum or
bitcoin account, manager.query_balances (lines 85, 95) either succeeds,
leaving the balances on the manager, or raises. For a file account, the
open and yaml.load of line 105 either return the parsed document (none
when it has no balances key) or raise, e.g. with FileNotFoundError.
Account above is the shape of the loop body data once every raising
call has succeeded; AccountOutcome.ofAccount injects that case. -/
inductive AccountOutcome where
  | exchange (name : String) (apiKeyValid : Bool) (queryError : Bool)
      (balances : List (Asset × ExchangeBalance))
  | ethereum (name : String) (query : Except String (List (Asset × ℚ × ℚ)))
  | bitcoin (name : String) (query : Except String (List (ℚ × ℚ)))
  | file (name : String) (opened : Except String (Option (List (Asset × ℚ))))

/-- The injection of a no-raise account into the outcome type. -/
def AccountOutcome.ofAccount : Account → AccountOutcome
  | .exchange n v q bs => .exchange n v q bs
  | .ethereum n bs => .ethereum n (.ok bs)
  | .bitcoin n bs => .bitcoin n (.ok bs)
  | .file n doc => .file n (.ok doc)

/-- The body of the balances loop with exception semantics: the handled
exchange failures contribute nothing (processAccount already returns the
sums unchanged for them), and a raising chain query or file open
propagates, since the loop has no handler
(src/buchfink/cli.py lines 60-112). -/
def processAccountExc (price : Asset → ℚ) (s : Sums) : AccountOutcome → Except String Sums
  | .exchange n v q bs => .ok (processAccount price s (Account.exchange n v q bs))
  | .ethereum n (.ok bs) => .ok (processAccount price s (Account.ethereum n bs))
  | .ethereum _ (.error e) => .error e
  | .bitcoin n (.ok bs) => .ok (processAccount price s (Account.bitcoin n bs))
  | .bitcoin _ (.error e) => .error e
  | .file n (.ok doc) => .ok (processAccount price s (Account.file n doc))
  | .file _ (.error e) => .error e

/-- The accumulation phase of the balances command with exception
semantics: an uncaught exception from one account aborts the loop. -/
def aggregateExc (price : Asset → ℚ) : List AccountOutcome → Sums → Except String Sums
  | [], s => .ok s
  | a :: rest, s =>
      match processAccountExc price s a with
      | .error e => .error e
      | .ok s2 => aggregateExc price rest s2

/-- The whole balances command with exception semantics: when any
account raises, no table is printed at all. -/
def balancesRun (price : Asset → ℚ) (rate : ℚ) (accounts : List AccountOutcome) :
    Except String (List Row) :=
  match aggregateExc price accounts ([], []) with
  | .error e => .error e
  | .ok s => .ok (buildTable rate s)

/-- A validated report definition; from buchfink/config.py, which is not
under src. Timestamps are the result of datetime.fromisoformat(..)
.timestamp(), which preserves date order. -/
structure ReportConfig where
  name : String
  title : Option String
  template : Option String
  fromTs : Int
  toTs : Int
deriving DecidableEq

/-- Modelled from the spec: the ReportConfig constructor of
buchfink/config.py is not under src; per the spec, from_dt lessEq to_dt
is an invariant of a report definition and violated definitions are
rejected with a configuration error before anything runs. -/
def mkReportConfig (name : String) (title template : Option String) (fromTs toTs : Int) :
    Except String ReportConfig :=
  if fromTs ≤ toTs then .ok ⟨name, title, template, fromTs, toTs⟩
  else .error ("ConfigError: report " ++ name ++ " has from after to")

/-- A raw report entry of the configuration document. -/
structure RawReport where
  name : String
  title : Option String
  template : Option String
  fromTs : Int
  toTs : Int
deriving DecidableEq

/-- BuchfinkDB.get_all_reports (src/buchfink/db.py lines 134-142):
construct a ReportConfig for every configured report entry in order; a
constructor failure aborts the enumeration. -/
def getAllReports : List RawReport → Except String (List ReportConfig)
  | [] => .ok []
  | r :: rest =>
      match mkReportConfig r.name r.title r.template r.fromTs r.toTs with
      | .error e => .error e
      | .ok c =>
          match getAllReports rest with
          | .error e => .error e
          | .ok cs => .ok (c :: cs)

/-- The overview numbers extracted from one report result
(src/buchfink/cli.py lines 209-213). -/
structure ReportResult where
  totalProfitLoss : ℚ
  totalTaxableProfitLoss : ℚ
deriving DecidableEq

/-- The report command (src/buchfink/cli.py lines 167-185): build the
report definition from the command line dates and hand it to run_report.
The runner is a parameter standing for the external run_report. -/
def reportCmd (runReport : ReportConfig → ReportResult) (name : String) (fromTs toTs : Int) :
    Except String ReportResult :=
  match mkReportConfig name none none fromTs toTs with
  | .error e => .error e
  | .ok c => .ok (runReport c)

/-- The loop of the batch run command over matched report definitions
(src/buchfink/cli.py lines 198-214): results[name] = run_report(..) for
each report in order, with no exception handler, so an error from any
run_report call aborts the command and no overview table is printed.
The runner parameter stands for run_report from buchfink/report.py,
which is not under src: per section 4.6 of the spec it fails with a
ReportError when the accounting collaborator raises. -/
def runBatch (runReport : ReportConfig → Except String ReportResult) :
    List ReportConfig → Except String (List (String × ReportResult))
  | [] => .ok []
  | r :: rest =>
      match runReport r with
      | .error e => .error e
      | .ok res =>
          match runBatch runReport rest with
          | .error e => .error e
          | .ok tail => .ok ((r.name, res) :: tail)

/-! ## Concrete inputs used in counterexamples and witnesses -/

/-- One exchange account reporting asset XXX with a quantity but no
usd_value entry, the shape query_balances takes when pricing failed. -/
def c1Accounts : List Account :=
  [Account.exchange "kraken1" true false [("XXX", ⟨5, none⟩)]]

/-- One exchange account with two assets of equal usd value, inserted in
descending identifier order. -/
def c3Accounts : List Account :=
  [Account.exchange "ex" true false [("ZZ", ⟨1, some 5⟩), ("AA", ⟨1, some 5⟩)]]

/-- A first account balance map holding only asset AA. -/
def c5M1 : Account := Account.exchange "acct1" true false [("AA", ⟨1, some 5⟩)]

/-- A second account balance map holding only asset BB, with the same
usd value as AA. -/
def c5M2 : Account := Account.exchange "acct2" true false [("BB", ⟨1, some 5⟩)]

/-- A sample trade with exact decimal amounts. -/
def c4Trade : Trade :=
  ⟨1600000000, "BTC", "EUR", TradeType.buy, ⟨5, 1⟩, ⟨1234567, 2⟩, ⟨1, 3⟩, "EUR"⟩

/-- A report definition that the runner fails on. -/
def c7Bad : ReportConfig := ⟨"bad", none, none, 0, 1⟩

/-- A report definition that the runner succeeds on. -/
def c7Good : ReportConfig := ⟨"good", none, none, 0, 1⟩

/-- A runner standing for run_report that raises a ReportError on the bad
report and succeeds on every other. -/
def c7Runner : ReportConfig → Except String ReportResult :=
  fun r => if r.name = "bad" then Except.error "ReportError" else Except.ok ⟨0, 0⟩

/-- A configuration with a single exchange account. -/
def c8Config : List AccountInfo := [AccountInfo.exchange "kraken1"]

/-- A file system with no ledger files at all. -/
def c8EmptyFs : String → Option YamlDoc := fun _ => none

/-! ## Lemmas about the dict accumulator -/

theorem lookup_upsertAdd (m : Entries) (k : Asset) (v : ℚ) (a : Asset) :
    lookupQ (upsertAdd m k v) a =
      if a = k then some ((lookupQ m a).getD 0 + v) else lookupQ m a := by
  induction m with
  | nil =>
      by_cases h : a = k
      · subst h; simp [upsertAdd, lookupQ]
      · simp [upsertAdd, lookupQ, h, Ne.symm h]
  | cons p rest ih =>
      obtain ⟨k0, v0⟩ := p
      by_cases hk : k0 = k
      · subst hk
        by_cases ha : a = k0
        · subst ha; simp [upsertAdd, lookupQ]
        · simp [upsertAdd, lookupQ, ha, Ne.symm ha]
      · by_cases ha : a = k0
        · subst ha
          simp [upsertAdd, lookupQ, hk, Ne.symm hk]
        · simp [upsertAdd, lookupQ, hk, ha, Ne.symm ha, ih]

theorem keysQ_nil : keysQ [] = [] := rfl

theorem keysQ_cons (p : Asset × ℚ) (l : Entries) : keysQ (p :: l) = p.1 :: keysQ l := rfl

theorem keysQ_upsertAdd (m : Entries) (k : Asset) (v : ℚ) :
    keysQ (upsertAdd m k v) = if k ∈ keysQ m then keysQ m else keysQ m ++ [k] := by
  induction m with
  | nil => simp [upsertAdd, keysQ]
  | cons p rest ih =>
      obtain ⟨k0, v0⟩ := p
      by_cases hk : k0 = k
      · subst hk; simp [upsertAdd, keysQ_cons]
      · by_cases hm : k ∈ keysQ rest
        · simp [upsertAdd, keysQ_cons, hk, hm, Ne.symm hk, ih]
        · simp [upsertAdd, keysQ_cons, hk, hm, Ne.symm hk, ih]

theorem nodup_keysQ_upsertAdd (m : Entries) (k : Asset) (v : ℚ)
    (h : (keysQ m).Nodup) : (keysQ (upsertAdd m k v)).Nodup := by
  rw [keysQ_upsertAdd]
  split
  · exact h
  · next hk =>
      refine List.Nodup.append h (List.nodup_singleton k) ?_
      intro x hx hxk
      rw [List.mem_singleton] at hxk
      subst hxk
      exact hk hx

theorem lookupQ_eq_none_iff (m : Entries) (a : Asset) :
    lookupQ m a = none ↔ a ∉ keysQ m := by
  induction m with
  | nil => simp [lookupQ, keysQ]
  | cons p rest ih =>
      obtain ⟨k0, v0⟩ := p
      by_cases h : k0 = a
      · subst h; simp [lookupQ, keysQ]
      · simp [lookupQ, keysQ, h, Ne.symm h, ih]

theorem lookupQ_of_mem_of_nodup (m : Entries) (p : Asset × ℚ)
    (hnd : (keysQ m).Nodup) (hp : p ∈ m) : lookupQ m p.1 = some p.2 := by
  induction m with
  | nil => cases hp
  | cons q rest ih =>
      obtain ⟨k0, v0⟩ := q
      simp only [keysQ, List.map_cons, List.nodup_cons] at hnd
      rcases List.mem_cons.mp hp with h | h
      · rw [h]; simp [lookupQ]
      · have hk : k0 ≠ p.1 := by
          intro he
          exact hnd.1 (he ▸ List.mem_map_of_mem Prod.fst h)
        simp only [lookupQ, if_neg hk]
        exact ih hnd.2 h

theorem sumFor_perm (a : Asset) {l1 l2 : Entries} (h : l1.Perm l2) :
    sumFor a l1 = sumFor a l2 := by
  induction h with
  | nil => rfl
  | cons x h ih => simp only [sumFor, ih]
  | swap x y l =>
      by_cases hx : x.1 = a <;> by_cases hy : y.1 = a <;>
        simp [sumFor, hx, hy] <;> ring
  | trans h1 h2 ih1 ih2 => exact ih1.trans ih2

theorem lookupQ_addAmounts (entries : Entries) (m : Entries) (a : Asset) :
    lookupQ (addAmounts m entries) a =
      match lookupQ m a with
      | some v => some (v + sumFor a entries)
      | none => if a ∈ keysQ entries then some (sumFor a entries) else none := by
  induction entries generalizing m with
  | nil =>
      cases h : lookupQ m a <;> simp [addAmounts, sumFor, h, keysQ]
  | cons e rest ih =>
      rw [show addAmounts m (e :: rest) = addAmounts (upsertAdd m e.1 e.2) rest from rfl, ih,
        lookup_upsertAdd]
      by_cases ha : a = e.1
      · rw [if_pos ha]
        subst ha
        cases h : lookupQ m e.1 <;>
          simp [sumFor, keysQ_cons, h, add_assoc]
      · rw [if_neg ha]
        have ha2 : e.1 ≠ a := fun hh => ha hh.symm
        cases h : lookupQ m a <;>
          simp [sumFor, keysQ_cons, ha, ha2, h]

theorem nodup_keysQ_addAmounts (entries m : Entries) (h : (keysQ m).Nodup) :
    (keysQ (addAmounts m entries)).Nodup := by
  induction entries generalizing m with
  | nil => exact h
  | cons e rest ih => exact ih _ (nodup_keysQ_upsertAdd _ _ _ h)

theorem sumValues_upsertAdd (m : Entries) (k : Asset) (v : ℚ) :
    sumValues (upsertAdd m k v) = sumValues m + v := by
  induction m with
  | nil => simp [upsertAdd, sumValues]
  | cons p rest ih =>
      obtain ⟨k0, v0⟩ := p
      by_cases h : k0 = k
      · subst h
        simp [upsertAdd, sumValues]
        ring
      · simp only [upsertAdd, if_neg h]
        simp only [sumValues, List.map_cons, List.sum_cons] at *
        rw [ih]
        ring

theorem sumValues_addAmounts (entries m : Entries) :
    sumValues (addAmounts m entries) = sumValues m + sumValues entries := by
  induction entries generalizing m with
  | nil => simp [addAmounts, sumValues]
  | cons e rest ih =>
      rw [show addAmounts m (e :: rest) = addAmounts (upsertAdd m e.1 e.2) rest from rfl, ih,
        sumValues_upsertAdd]
      simp only [sumValues, List.map_cons, List.sum_cons]
      ring

theorem addAmounts_append (m e1 e2 : Entries) :
    addAmounts m (e1 ++ e2) = addAmounts (addAmounts m e1) e2 :=
  List.foldl_append _ _ _ _

/-! ## Decomposition of the balances accumulation into contribution lists -/

theorem exchange_fold_eq (bs : List (Asset × ExchangeBalance)) (x y : Entries) :
    bs.foldl (fun t e => (upsertAdd t.1 e.1 e.2.amount,
        match e.2.usdValue with | some v => upsertAdd t.2 e.1 v | none => t.2)) (x, y)
      = (addAmounts x (bs.map (fun e => (e.1, e.2.amount))),
         addAmounts y (bs.filterMap (fun e => e.2.usdValue.map (fun u => (e.1, u))))) := by
  induction bs generalizing x y with
  | nil => rfl
  | cons e rest ih =>
      cases h : e.2.usdValue with
      | none => simp [List.foldl_cons, List.filterMap_cons, h, ih, addAmounts]
      | some v => simp [List.foldl_cons, List.filterMap_cons, h, ih, addAmounts]

theorem ethereum_fold_eq (bs : List (Asset × ℚ × ℚ)) (x y : Entries) :
    bs.foldl (fun t e => (upsertAdd t.1 e.1 e.2.1, upsertAdd t.2 e.1 e.2.2)) (x, y)
      = (addAmounts x (bs.map (fun e => (e.1, e.2.1))),
         addAmounts y (bs.map (fun e => (e.1, e.2.2)))) := by
  induction bs generalizing x y with
  | nil => rfl
  | cons e rest ih => simp [List.foldl_cons, ih, addAmounts]

theorem bitcoin_fold_eq (bs : List (ℚ × ℚ)) (x y : Entries) :
    bs.foldl (fun t e => (upsertAdd t.1 "BTC" e.1, upsertAdd t.2 "BTC" e.2)) (x, y)
      = (addAmounts x (bs.map (fun e => ("BTC", e.1))),
         addAmounts y (bs.map (fun e => ("BTC", e.2)))) := by
  induction bs generalizing x y with
  | nil => rfl
  | cons e rest ih => simp [List.foldl_cons, ih, addAmounts]

theorem file_fold_eq (price : Asset → ℚ) (entries : List (Asset × ℚ)) (x y : Entries) :
    entries.foldl (fun t e => (upsertAdd t.1 e.1 e.2, upsertAdd t.2 e.1 (e.2 * price e.1))) (x, y)
      = (addAmounts x entries,
         addAmounts y (entries.map (fun e => (e.1, e.2 * price e.1)))) := by
  induction entries generalizing x y with
  | nil => rfl
  | cons e rest ih => simp [List.foldl_cons, ih, addAmounts]

theorem processAccount_eq (price : Asset → ℚ) (s : Sums) (a : Account) :
    processAccount price s a
      = (addAmounts s.1 (balContribs a), addAmounts s.2 (usdContribs price a)) := by
  obtain ⟨x, y⟩ := s
  cases a with
  | exchange n valid qerr bs =>
      cases valid with
      | false => simp [processAccount, balContribs, usdContribs, addAmounts]
      | true =>
          cases qerr with
          | false => simpa [processAccount, balContribs, usdContribs] using exchange_fold_eq bs x y
          | true => simp [processAccount, balContribs, usdContribs, addAmounts]
  | ethereum n bs => simpa [processAccount, balContribs, usdContribs] using ethereum_fold_eq bs x y
  | bitcoin n bs => simpa [processAccount, balContribs, usdContribs] using bitcoin_fold_eq bs x y
  | file n doc =>
      cases doc with
      | none => simp [processAccount, balContribs, usdContribs, addAmounts]
      | some entries =>
          simpa [processAccount, balContribs, usdContribs] using file_fold_eq price entries x y

theorem contribsOf_perm (f : Account → Entries) {l1 l2 : List Account} (h : l1.Perm l2) :
    (contribsOf f l1).Perm (contribsOf f l2) := by
  induction h with
  | nil => exact List.Perm.refl _
  | cons a h ih =>
      simp only [contribsOf]
      exact List.Perm.append_left (f a) ih
  | swap x y l =>
      simp only [contribsOf, ← List.append_assoc]
      exact List.Perm.append_right _ List.perm_append_comm
  | trans h1 h2 ih1 ih2 => exact ih1.trans ih2

theorem foldl_processAccount_eq (price : Asset → ℚ) (l : List Account) (s : Sums) :
    l.foldl (processAccount price) s
      = (addAmounts s.1 (contribsOf balContribs l),
         addAmounts s.2 (contribsOf (usdContribs price) l)) := by
  induction l generalizing s with
  | nil => simp [contribsOf, addAmounts]
  | cons a rest ih =>
      rw [List.foldl_cons, processAccount_eq, ih]
      simp only [contribsOf, addAmounts_append]

theorem aggregate_eq (price : Asset → ℚ) (accounts : List Account) :
    aggregate price accounts
      = (addAmounts [] (contribsOf balContribs accounts),
         addAmounts [] (contribsOf (usdContribs price) accounts)) :=
  foldl_processAccount_eq price accounts ([], [])

/-! ## Lemmas about the printed table -/

theorem foldl_add_value (l : List Row) (c : ℚ) :
    l.foldl (fun acc r => acc + r.value) c = c + (l.map Row.value).sum := by
  induction l generalizing c with
  | nil => simp
  | cons r rest ih => simp [List.foldl_cons, ih, add_assoc]

theorem buildTable_dropLast (rate : ℚ) (s : Sums) :
    (buildTable rate s).dropLast
      = ((sortByValueDesc s.2).map Prod.fst).map (fun a =>
          { asset := a, amount := some ((lookupQ s.1 a).getD 0),
            value := (lookupQ s.2 a).getD 0 / rate : Row }) := by
  simp [buildTable, List.dropLast_concat]

theorem buildTable_total (rate : ℚ) (s : Sums) :
    (buildTable rate s).getLast?
      = some ⟨"Total", none, (((buildTable rate s).dropLast).map Row.value).sum⟩ := by
  simp only [buildTable, List.getLast?_concat, List.dropLast_concat, foldl_add_value, zero_add]

theorem asset_of_mem_dropLast (rate : ℚ) (s : Sums) (r : Row)
    (hr : r ∈ (buildTable rate s).dropLast) : r.asset ∈ keysQ s.2 := by
  rw [buildTable_dropLast] at hr
  obtain ⟨a, ha, rfl⟩ := List.mem_map.mp hr
  obtain ⟨p, hp, rfl⟩ := List.mem_map.mp ha
  exact List.mem_map_of_mem Prod.fst ((List.perm_insertionSort valGe s.2).mem_iff.mp hp)

theorem nodup_keysQ_aggregate (price : Asset → ℚ) (accounts : List Account) :
    (keysQ (aggregate price accounts).2).Nodup := by
  rw [aggregate_eq]
  exact nodup_keysQ_addAmounts _ _ (by simp [keysQ])

theorem rows_sorted (price : Asset → ℚ) (rate : ℚ) (accounts : List Account) (hrate : 0 < rate) :
    List.Sorted (fun r1 r2 : Row => r2.value ≤ r1.value)
      ((balancesTable price rate accounts).dropLast) := by
  have hnd := nodup_keysQ_aggregate price accounts
  rw [balancesTable, buildTable_dropLast, List.map_map, List.Sorted, List.pairwise_map]
  have hs : List.Sorted valGe (sortByValueDesc (aggregate price accounts).2) :=
    List.sorted_insertionSort valGe _
  refine List.Pairwise.imp_of_mem ?_ hs
  intro p q hp hq hpq
  have hp2 : lookupQ (aggregate price accounts).2 p.1 = some p.2 :=
    lookupQ_of_mem_of_nodup _ _ hnd ((List.perm_insertionSort valGe _).mem_iff.mp hp)
  have hq2 : lookupQ (aggregate price accounts).2 q.1 = some q.2 :=
    lookupQ_of_mem_of_nodup _ _ hnd ((List.perm_insertionSort valGe _).mem_iff.mp hq)
  show (lookupQ (aggregate price accounts).2 q.1).getD 0 / rate
      ≤ (lookupQ (aggregate price accounts).2 p.1).getD 0 / rate
  rw [hp2, hq2]
  exact div_le_div_of_nonneg_right hpq hrate.le

/-! ## Lemmas about the ledger store and report pipeline -/

theorem deserialize_serialize (t : Trade) : deserializeTrade (serializeTrade t) = Except.ok t := by
  cases t with
  | mk ts b q tt am r f fc => cases tt <;> rfl

theorem deserializeTrades_serializeTrades (ts : List Trade) :
    deserializeTrades (serializeTrades ts) = Except.ok ts := by
  induction ts with
  | nil => rfl
  | cons t rest ih =>
      have ih2 : deserializeTrades (List.map serializeTrade rest) = Except.ok rest := ih
      simp [serializeTrades, deserializeTrades, deserialize_serialize, ih2]

theorem collectFrom_error (config : List AccountInfo) (fs : String → Option YamlDoc)
    (l : List AccountInfo) (a : AccountInfo) (ha : a ∈ l) (e : String)
    (he : getLocalTradesForAccount config fs a.name = Except.error e) :
    ∃ e2, collectFrom config fs l = Except.error e2 := by
  induction l with
  | nil => cases ha
  | cons b rest ih =>
      rcases List.mem_cons.mp ha with rfl | hmem
      · exact ⟨e, by simp [collectFrom, he]⟩
      · cases hb : getLocalTradesForAccount config fs b.name with
        | error e3 => exact ⟨e3, by simp [collectFrom, hb]⟩
        | ok ts =>
            obtain ⟨e2, h2⟩ := ih hmem
            exact ⟨e2, by simp [collectFrom, hb, h2]⟩

theorem getAllReports_error_of_bad (raws : List RawReport) (r : RawReport)
    (hrb : r.toTs < r.fromTs) :
    r ∈ raws → ∃ e, getAllReports raws = Except.error e := by
  induction raws with
  | nil => intro hr; cases hr
  | cons r0 rest ih =>
      intro hr
      rcases List.mem_cons.mp hr with rfl | hmem
      · exact ⟨"ConfigError: report " ++ r.name ++ " has from after to",
          by simp [getAllReports, mkReportConfig, not_le.mpr hrb]⟩
      · cases hm : mkReportConfig r0.name r0.title r0.template r0.fromTs r0.toTs with
        | error e => exact ⟨e, by simp [getAllReports, hm]⟩
        | ok c =>
            obtain ⟨e, he⟩ := ih hmem
            exact ⟨e, by simp [getAllReports, hm, he]⟩

/-! ## Claims C4, C6, C7, C8, C9, C10 -/

/-- Claim C4: fetch serializes the trades of an account into its ledger
file (src/buchfink/cli.py lines 163-164) and get_local_trades_for_account
(src/buchfink/db.py lines 160-163) reads them back; for any non-empty
trade list the loaded sequence equals the saved one field for field, with
decimals exact. The serialization functions themselves are modelled from
the spec, since buchfink/serialization.py is not under src. -/
theorem c4_save_load_roundtrip (fs : String → Option YamlDoc) (cfg : List AccountInfo)
    (name : String) (trades : List Trade) (hne : trades ≠ [])
    (hacct : findAccount cfg name = some (AccountInfo.exchange name)) :
    getLocalTradesForAccount cfg (saveTradesFetch fs name trades) name = Except.ok trades := by
  simp [getLocalTradesForAccount, hacct, saveTradesFetch, deserializeTrades_serializeTrades]

/-- Witness for C4 at a concrete store, account and one-trade ledger. -/
theorem c4_save_load_roundtrip_witness :
    ([c4Trade] ≠ ([] : List Trade))
    ∧ findAccount [AccountInfo.exchange "kraken1"] "kraken1"
        = some (AccountInfo.exchange "kraken1")
    ∧ getLocalTradesForAccount [AccountInfo.exchange "kraken1"]
        (saveTradesFetch (fun _ => none) "kraken1" [c4Trade]) "kraken1"
        = Except.ok [c4Trade] :=
  ⟨by simp, rfl,
    c4_save_load_roundtrip (fun _ => none) [AccountInfo.exchange "kraken1"] "kraken1"
      [c4Trade] (by simp) rfl⟩

/-- Claim C6: a report definition whose from date is after its to date is
rejected with a configuration error before any report computation runs:
the report command returns the error whatever the runner is, and
get_all_reports fails on any configuration containing such an entry
(src/buchfink/cli.py lines 167-185, src/buchfink/db.py lines 134-142).
The from lessEq to validation lives in buchfink/config.py, which is not
under src, and is modelled from the spec. -/
theorem c6_invalid_report_rejected (runReport : ReportConfig → ReportResult) (name : String)
    (fromTs toTs : Int) (h : toTs < fromTs) (raws : List RawReport) (r : RawReport)
    (hr : r ∈ raws) (hrb : r.toTs < r.fromTs) :
    reportCmd runReport name fromTs toTs
        = Except.error ("ConfigError: report " ++ name ++ " has from after to")
    ∧ ∃ e, getAllReports raws = Except.error e := by
  refine ⟨?_, getAllReports_error_of_bad raws r hrb hr⟩
  simp [reportCmd, mkReportConfig, not_le.mpr h]

/-- Witness for C6 at a concrete inverted date range. -/
theorem c6_invalid_report_rejected_witness :
    ((5:Int) < 10)
    ∧ (⟨"X", none, none, 10, 5⟩ : RawReport) ∈ [(⟨"X", none, none, 10, 5⟩ : RawReport)]
    ∧ ((⟨"X", none, none, 10, 5⟩ : RawReport).toTs < (⟨"X", none, none, 10, 5⟩ : RawReport).fromTs)
    ∧ (reportCmd (fun _ => ⟨0, 0⟩) "X" 10 5
        = Except.error ("ConfigError: report " ++ "X" ++ " has from after to")
      ∧ ∃ e, getAllReports [(⟨"X", none, none, 10, 5⟩ : RawReport)] = Except.error e) :=
  ⟨by decide, List.mem_singleton_self _, by decide,
    c6_invalid_report_rejected (fun _ => ⟨0, 0⟩) "X" 10 5 (by decide)
      [⟨"X", none, none, 10, 5⟩] ⟨"X", none, none, 10, 5⟩
      (List.mem_singleton_self _) (by decide)⟩

/-- Claim C7 counterexample: the batch run loop (src/buchfink/cli.py
lines 198-214) has no exception handler, so with a failing report
followed by a healthy one the whole batch is the error and the healthy
report's result appears in no output table, contradicting the claim that
other reports still run. -/
theorem c7_counterexample :
    runBatch c7Runner [c7Bad, c7Good] = Except.error "ReportError"
    ∧ ∀ res : List (String × ReportResult), runBatch c7Runner [c7Bad, c7Good] ≠ Except.ok res := by
  constructor
  · rfl
  · intro res h
    rw [show runBatch c7Runner [c7Bad, c7Good] = Except.error "ReportError" from rfl] at h
    cases h

/-- Claim C7 amended: a ReportError raised while computing one report
aborts the whole batch run at that point: whenever every report before
the failing one succeeds, the batch result is the error, so the reports
after it are not run and no overview table is produced. -/
theorem c7_error_aborts_batch (runReport : ReportConfig → Except String ReportResult)
    (pre post : List ReportConfig) (r : ReportConfig) (e : String)
    (hpre : ∀ p ∈ pre, ∃ v, runReport p = Except.ok v)
    (hr : runReport r = Except.error e) :
    runBatch runReport (pre ++ r :: post) = Except.error e := by
  induction pre with
  | nil => simp [runBatch, hr]
  | cons p ps ih =>
      obtain ⟨v, hv⟩ := hpre p (List.mem_cons_self p ps)
      have ih2 := ih (fun q hq => hpre q (List.mem_cons_of_mem p hq))
      simp [runBatch, hv, ih2]

/-- Witness for the amended C7 at a concrete batch. -/
theorem c7_error_aborts_batch_witness :
    (∀ p ∈ [c7Good], ∃ v, c7Runner p = Except.ok v)
    ∧ c7Runner c7Bad = Except.error "ReportError"
    ∧ runBatch c7Runner ([c7Good] ++ c7Bad :: []) = Except.error "ReportError" := by
  have hpre : ∀ p ∈ [c7Good], ∃ v, c7Runner p = Except.ok v := by
    intro p hp
    rw [List.mem_singleton] at hp
    subst hp
    exact ⟨⟨0, 0⟩, rfl⟩
  exact ⟨hpre, rfl, c7_error_aborts_batch c7Runner [c7Good] [] c7Bad "ReportError" hpre rfl⟩

/-- Claim C8 counterexample: with one configured exchange account and no
ledger file on disk, the local trade lookup raises FileNotFoundError
instead of returning an empty history, and the allowances collection
aborts with that error instead of completing. -/
theorem c8_counterexample :
    getLocalTradesForAccount c8Config c8EmptyFs "kraken1"
        = Except.error "FileNotFoundError: trades/kraken1.yaml"
    ∧ collectAllTrades c8Config c8EmptyFs
        = Except.error "FileNotFoundError: trades/kraken1.yaml" := by
  constructor <;> rfl

/-- Claim C8 amended: an exchange account with no persisted ledger file
makes get_local_trades_for_account raise FileNotFoundError
(src/buchfink/db.py lines 160-162), and the allowances command, which
collects local trades across all configured accounts with no handler
(src/buchfink/cli.py lines 226-228), aborts rather than treating the
missing ledger as empty history. -/
theorem c8_missing_ledger_fatal (cfg : List AccountInfo) (fs : String → Option YamlDoc)
    (n : String)
    (hacct : findAccount cfg n = some (AccountInfo.exchange n))
    (hfs : fs ("trades/" ++ n ++ ".yaml") = none)
    (hmem : AccountInfo.exchange n ∈ cfg) :
    getLocalTradesForAccount cfg fs n
        = Except.error ("FileNotFoundError: trades/" ++ n ++ ".yaml")
    ∧ ∃ e, collectAllTrades cfg fs = Except.error e := by
  have h1 : getLocalTradesForAccount cfg fs n
      = Except.error ("FileNotFoundError: trades/" ++ n ++ ".yaml") := by
    simp [getLocalTradesForAccount, hacct, hfs]
  exact ⟨h1, collectFrom_error cfg fs cfg (AccountInfo.exchange n) hmem _ h1⟩

/-- Witness for the amended C8 at the concrete empty store. -/
theorem c8_missing_ledger_fatal_witness :
    findAccount c8Config "kraken1" = some (AccountInfo.exchange "kraken1")
    ∧ c8EmptyFs ("trades/" ++ "kraken1" ++ ".yaml") = none
    ∧ AccountInfo.exchange "kraken1" ∈ c8Config
    ∧ (getLocalTradesForAccount c8Config c8EmptyFs "kraken1"
        = Except.error ("FileNotFoundError: trades/" ++ "kraken1" ++ ".yaml")
      ∧ ∃ e, collectAllTrades c8Config c8EmptyFs = Except.error e) :=
  ⟨rfl, rfl, List.mem_singleton_self _,
    c8_missing_ledger_fatal c8Config c8EmptyFs "kraken1" rfl rfl (List.mem_singleton_self _)⟩

/-- Claim C9: for every configured account of the ethereum or bitcoin
variant, the local trade lookup returns the empty sequence; the embedded
lookup is a total function returning ok, so it never raises
(src/buchfink/db.py lines 170-172). -/
theorem c9_chain_accounts_empty_trades (cfg : List AccountInfo) (fs : String → Option YamlDoc)
    (n : String) (a : AccountInfo) (hacct : findAccount cfg n = some a)
    (hchain : (∃ n2 addr, a = AccountInfo.ethereum n2 addr)
      ∨ (∃ n2 addr, a = AccountInfo.bitcoin n2 addr)) :
    getLocalTradesForAccount cfg fs n = Except.ok [] := by
  rcases hchain with ⟨n2, addr, rfl⟩ | ⟨n2, addr, rfl⟩ <;>
    simp [getLocalTradesForAccount, hacct]

/-- Witness for C9 at a concrete ethereum account. -/
theorem c9_chain_accounts_empty_trades_witness :
    findAccount [AccountInfo.ethereum "w" "0xabc"] "w"
        = some (AccountInfo.ethereum "w" "0xabc")
    ∧ getLocalTradesForAccount [AccountInfo.ethereum "w" "0xabc"] (fun _ => none) "w"
        = Except.ok [] :=
  ⟨rfl, c9_chain_accounts_empty_trades [AccountInfo.ethereum "w" "0xabc"] (fun _ => none)
    "w" (AccountInfo.ethereum "w" "0xabc") rfl (Or.inl ⟨"w", "0xabc", rfl⟩)⟩

/-- Claim C10: a file-variant account whose ledger document lacks the
trades key yields the empty sequence without raising (the key defaults
to an empty list, src/buchfink/db.py line 168), while an exchange-variant
account reads the trades key unconditionally and a missing key raises a
KeyError (line 163). -/
theorem c10_trades_key_handling (cfg1 cfg2 : List AccountInfo)
    (fs1 fs2 : String → Option YamlDoc) (n1 n2 p : String) (d1 d2 : YamlDoc)
    (h1 : findAccount cfg1 n1 = some (AccountInfo.file n1 p))
    (h2 : fs1 p = some d1) (h3 : d1.trades = none)
    (h4 : findAccount cfg2 n2 = some (AccountInfo.exchange n2))
    (h5 : fs2 ("trades/" ++ n2 ++ ".yaml") = some d2) (h6 : d2.trades = none) :
    getLocalTradesForAccount cfg1 fs1 n1 = Except.ok []
    ∧ getLocalTradesForAccount cfg2 fs2 n2 = Except.error "KeyError: trades" := by
  constructor
  · simp [getLocalTradesForAccount, h1, h2, h3, deserializeTrades]
  · simp [getLocalTradesForAccount, h4, h5, h6]

/-- Witness for C10 at concrete documents lacking the trades key. -/
theorem c10_trades_key_handling_witness :
    findAccount [AccountInfo.file "manual" "manual.yaml"] "manual"
        = some (AccountInfo.file "manual" "manual.yaml")
    ∧ (fun p0 => if p0 = "manual.yaml" then some (⟨none⟩ : YamlDoc) else none) "manual.yaml"
        = some (⟨none⟩ : YamlDoc)
    ∧ (⟨none⟩ : YamlDoc).trades = none
    ∧ findAccount [AccountInfo.exchange "kraken1"] "kraken1"
        = some (AccountInfo.exchange "kraken1")
    ∧ (fun p0 => if p0 = "trades/kraken1.yaml" then some (⟨none⟩ : YamlDoc) else none)
        ("trades/" ++ "kraken1" ++ ".yaml") = some (⟨none⟩ : YamlDoc)
    ∧ (⟨none⟩ : YamlDoc).trades = none
    ∧ (getLocalTradesForAccount [AccountInfo.file "manual" "manual.yaml"]
        (fun p0 => if p0 = "manual.yaml" then some (⟨none⟩ : YamlDoc) else none) "manual"
          = Except.ok []
      ∧ getLocalTradesForAccount [AccountInfo.exchange "kraken1"]
          (fun p0 => if p0 = "trades/kraken1.yaml" then some (⟨none⟩ : YamlDoc) else none)
          "kraken1" = Except.error "KeyError: trades") :=
  ⟨rfl, rfl, rfl, rfl, rfl, rfl,
    c10_trades_key_handling [AccountInfo.file "manual" "manual.yaml"]
      [AccountInfo.exchange "kraken1"]
      (fun p0 => if p0 = "manual.yaml" then some (⟨none⟩ : YamlDoc) else none)
      (fun p0 => if p0 = "trades/kraken1.yaml" then some (⟨none⟩ : YamlDoc) else none)
      "manual" "kraken1" "manual.yaml" ⟨none⟩ ⟨none⟩ rfl rfl rfl rfl rfl rfl⟩

/-! ## Claims C1 and C2 -/

/-- Claim C1 counterexample: with one exchange account reporting asset
XXX with quantity 5 but no usd_value, the quantity is accumulated, yet
the printed table contains no row for asset XXX at all: the rows are
generated from the keys of usd_value_sum only (src/buchfink/cli.py line
118), so the asset is dropped instead of shown with a missing value. -/
theorem c1_counterexample :
    lookupQ (aggregate (fun _ => 1) c1Accounts).1 "XXX" = some 5
    ∧ ((balancesTable (fun _ => 1) 1 c1Accounts).dropLast).filter
        (fun r => decide (r.asset = "XXX")) = [] := by
  constructor
  · rfl
  · rfl

/-- Claim C1 amended: when pricing failed throughout for an asset X, so
that X has a recorded quantity in balances_sum but no usd_value_sum
entry, the aggregation still completes, but the printed table omits the
row for X entirely; the synthetic Total row is the last row and sums the
values of exactly the rows that are printed, so the contribution of X is
excluded rather than counted as zero. -/
theorem c1_missing_price_row (price : Asset → ℚ) (rate : ℚ) (accounts : List Account)
    (X : Asset) (q : ℚ)
    (hq : lookupQ (aggregate price accounts).1 X = some q)
    (hu : lookupQ (aggregate price accounts).2 X = none) :
    (∀ r ∈ (balancesTable price rate accounts).dropLast, r.asset ≠ X)
    ∧ (balancesTable price rate accounts).getLast?
        = some ⟨"Total", none,
            (((balancesTable price rate accounts).dropLast).map Row.value).sum⟩ := by
  constructor
  · intro r hr he
    have hk : r.asset ∈ keysQ (aggregate price accounts).2 :=
      asset_of_mem_dropLast rate (aggregate price accounts) r hr
    rw [he] at hk
    exact (lookupQ_eq_none_iff _ _).mp hu hk
  · exact buildTable_total rate (aggregate price accounts)

/-- Witness for the amended C1 at the concrete unpriced-asset input. -/
theorem c1_missing_price_row_witness :
    lookupQ (aggregate (fun _ => 1) c1Accounts).1 "XXX" = some 5
    ∧ lookupQ (aggregate (fun _ => 1) c1Accounts).2 "XXX" = none
    ∧ ((∀ r ∈ (balancesTable (fun _ => 1) 1 c1Accounts).dropLast, r.asset ≠ "XXX")
      ∧ (balancesTable (fun _ => 1) 1 c1Accounts).getLast?
          = some ⟨"Total", none,
              (((balancesTable (fun _ => 1) 1 c1Accounts).dropLast).map Row.value).sum⟩) :=
  ⟨rfl, rfl, c1_missing_price_row (fun _ => 1) 1 c1Accounts "XXX" 5 rfl rfl⟩

theorem processAccount_failed (price : Asset → ℚ) (s : Sums) (n : String)
    (valid qerr : Bool) (bs : List (Asset × ExchangeBalance))
    (hfail : valid = false ∨ qerr = true) :
    processAccount price s (Account.exchange n valid qerr bs) = s := by
  rcases hfail with rfl | rfl
  · rfl
  · cases valid <;> rfl

/-- The run with exception semantics agrees with the pure aggregation
whenever no external call raised. -/
theorem aggregateExc_ofAccount (price : Asset → ℚ) (accounts : List Account) (s : Sums) :
    aggregateExc price (accounts.map AccountOutcome.ofAccount) s
      = Except.ok (accounts.foldl (processAccount price) s) := by
  induction accounts generalizing s with
  | nil => rfl
  | cons a rest ih =>
      cases a <;>
        simp [aggregateExc, processAccountExc, AccountOutcome.ofAccount, ih, List.foldl_cons]

theorem aggregateExc_append (price : Asset → ℚ) (l1 l2 : List AccountOutcome) (s : Sums) :
    aggregateExc price (l1 ++ l2) s
      = match aggregateExc price l1 s with
        | .error e => .error e
        | .ok s1 => aggregateExc price l2 s1 := by
  induction l1 generalizing s with
  | nil => rfl
  | cons a rest ih =>
      cases h : processAccountExc price s a with
      | error e => simp [aggregateExc, h]
      | ok s2 => simp [aggregateExc, h, ih]

theorem processAccountExc_failed_exchange (price : Asset → ℚ) (s : Sums) (n : String)
    (valid qerr : Bool) (bs : List (Asset × ExchangeBalance))
    (hfail : valid = false ∨ qerr = true) :
    processAccountExc price s (AccountOutcome.exchange n valid qerr bs) = Except.ok s := by
  have hs := processAccount_failed price s n valid qerr bs hfail
  simp [processAccountExc, hs]

theorem fetchRunExc_append (fs : String → Option YamlDoc) (f1 f2 : List FetchOutcome) :
    fetchRunExc fs (f1 ++ f2)
      = match fetchRunExc fs f1 with
        | .error e => .error e
        | .ok fs1 => fetchRunExc fs1 f2 := by
  induction f1 generalizing fs with
  | nil => rfl
  | cons a rest ih =>
      cases h : fetchStepExc fs a with
      | error e => simp [fetchRunExc, h]
      | ok fs2 => simp [fetchRunExc, h, ih]

theorem fetchStepExc_invalid (fs : String → Option YamlDoc) (a : FetchOutcome)
    (hfa : a.apiKeyValid = false) : fetchStepExc fs a = Except.ok fs := by
  cases hi : a.isExchange <;> simp [fetchStepExc, hi, hfa]

theorem fetchStepExc_raises (fs : String → Option YamlDoc) (a : FetchOutcome) (e : String)
    (h1 : a.isExchange = true) (h2 : a.apiKeyValid = true)
    (h3 : a.query = Except.error e) : fetchStepExc fs a = Except.error e := by
  simp [fetchStepExc, h1, h2, h3]

/-- Claim C2 counterexample: the balances and fetch loops have no
exception handler, so a raising source aborts the whole run. An ethereum
account whose manager.query_balances raises (src/buchfink/cli.py line
85) kills the balances command before the healthy exchange account after
it is aggregated and no table is produced; an exchange whose
query_online_trade_history raises (line 156) kills the fetch command
before the next account is fetched. This contradicts the claim that the
failure of one unreachable source is logged and skipped and the run
continues over the remaining accounts. -/
theorem c2_counterexample :
    balancesRun (fun _ => 1) 1
        [AccountOutcome.ethereum "w1" (Except.error "RemoteError: eth node unreachable"),
         AccountOutcome.exchange "kraken1" true false [("BTC", ⟨1, some 5⟩)]]
      = Except.error "RemoteError: eth node unreachable"
    ∧ fetchRunExc (fun _ => none)
        [⟨"kraken1", true, true, Except.error "RemoteError: kraken unreachable"⟩,
         ⟨"bitfinex", true, true, Except.ok []⟩]
      = Except.error "RemoteError: kraken unreachable" :=
  ⟨rfl, rfl⟩

/-- Claim C2 amended: failure isolation holds exactly for the failure
modes the code handles, and only for those. Handled: an exchange account
whose validate_api_key returns false or whose query_balances reports an
error is skipped and the balances aggregation equals the aggregation
without it (src/buchfink/cli.py lines 67-75), and likewise the fetch
loop skips an exchange with an invalid api key (lines 148-152).
Unhandled: an account whose external call raises, such as a chain
manager query (lines 85, 95), a file open (line 105) or a trade history
query in fetch (line 156), aborts the whole run at that point once the
accounts before it have been processed. -/
theorem c2_handled_skipped_raising_aborts (price : Asset → ℚ)
    (l1 l2 : List AccountOutcome) (n : String) (valid qerr : Bool)
    (bs : List (Asset × ExchangeBalance)) (hfail : valid = false ∨ qerr = true)
    (s : Sums) (b : AccountOutcome) (e : String)
    (hraise : ∀ s2 : Sums, processAccountExc price s2 b = Except.error e)
    (s1 : Sums) (hpre : aggregateExc price l1 s = Except.ok s1)
    (fs : String → Option YamlDoc) (f1 f2 : List FetchOutcome) (fa : FetchOutcome)
    (hfa : fa.apiKeyValid = false)
    (fb : FetchOutcome) (e2 : String) (hfb1 : fb.isExchange = true)
    (hfb2 : fb.apiKeyValid = true) (hfb3 : fb.query = Except.error e2)
    (fs1 : String → Option YamlDoc) (hfpre : fetchRunExc fs f1 = Except.ok fs1) :
    aggregateExc price (l1 ++ AccountOutcome.exchange n valid qerr bs :: l2) s
        = aggregateExc price (l1 ++ l2) s
    ∧ aggregateExc price (l1 ++ b :: l2) s = Except.error e
    ∧ fetchRunExc fs (f1 ++ fa :: f2) = fetchRunExc fs (f1 ++ f2)
    ∧ fetchRunExc fs (f1 ++ fb :: f2) = Except.error e2 := by
  refine ⟨?_, ?_, ?_, ?_⟩
  · rw [aggregateExc_append, aggregateExc_append]
    cases hl : aggregateExc price l1 s with
    | error e3 => rfl
    | ok s2 =>
        simp [aggregateExc, processAccountExc_failed_exchange price s2 n valid qerr bs hfail]
  · rw [aggregateExc_append, hpre]
    simp [aggregateExc, hraise s1]
  · rw [fetchRunExc_append, fetchRunExc_append]
    cases hl : fetchRunExc fs f1 with
    | error e3 => rfl
    | ok g => simp [fetchRunExc, fetchStepExc_invalid g fa hfa]
  · rw [fetchRunExc_append, hfpre]
    simp [fetchRunExc, fetchStepExc_raises fs1 fb e2 hfb1 hfb2 hfb3]

/-- Witness for the amended C2: a concrete skipped invalid-key exchange
account and a concrete raising ethereum account in the balances run, and
a concrete skipped and a concrete raising account in the fetch run,
each placed after one healthy processed account. -/
theorem c2_handled_skipped_raising_aborts_witness :
    (false = false ∨ false = true)
    ∧ (∀ s2 : Sums, processAccountExc (fun _ => 1) s2
          (AccountOutcome.ethereum "w" (Except.error "RemoteError"))
        = Except.error "RemoteError")
    ∧ aggregateExc (fun _ => 1)
        [AccountOutcome.exchange "ok1" true false [("BTC", ⟨1, some 5⟩)]] ([], [])
        = Except.ok ([("BTC", 1)], [("BTC", 5)])
    ∧ (⟨"k", true, false, Except.ok []⟩ : FetchOutcome).apiKeyValid = false
    ∧ (⟨"kr", true, true, Except.error "RemoteError2"⟩ : FetchOutcome).isExchange = true
    ∧ (⟨"kr", true, true, Except.error "RemoteError2"⟩ : FetchOutcome).apiKeyValid = true
    ∧ (⟨"kr", true, true, Except.error "RemoteError2"⟩ : FetchOutcome).query
        = Except.error "RemoteError2"
    ∧ fetchRunExc (fun _ => none) ([] : List FetchOutcome) = Except.ok (fun _ => none)
    ∧ (aggregateExc (fun _ => 1)
          ([AccountOutcome.exchange "ok1" true false [("BTC", ⟨1, some 5⟩)]]
            ++ AccountOutcome.exchange "bad" false false [] :: []) ([], [])
          = aggregateExc (fun _ => 1)
              ([AccountOutcome.exchange "ok1" true false [("BTC", ⟨1, some 5⟩)]] ++ [])
              ([], [])
      ∧ aggregateExc (fun _ => 1)
          ([AccountOutcome.exchange "ok1" true false [("BTC", ⟨1, some 5⟩)]]
            ++ AccountOutcome.ethereum "w" (Except.error "RemoteError") :: []) ([], [])
          = Except.error "RemoteError"
      ∧ fetchRunExc (fun _ => none)
          ([] ++ (⟨"k", true, false, Except.ok []⟩ : FetchOutcome) :: [])
          = fetchRunExc (fun _ => none) ([] ++ [])
      ∧ fetchRunExc (fun _ => none)
          ([] ++ (⟨"kr", true, true, Except.error "RemoteError2"⟩ : FetchOutcome) :: [])
          = Except.error "RemoteError2") :=
  ⟨Or.inl rfl, fun _ => rfl, rfl, rfl, rfl, rfl, rfl, rfl,
    c2_handled_skipped_raising_aborts (fun _ => 1)
      [AccountOutcome.exchange "ok1" true false [("BTC", ⟨1, some 5⟩)]] []
      "bad" false false [] (Or.inl rfl) ([], [])
      (AccountOutcome.ethereum "w" (Except.error "RemoteError")) "RemoteError"
      (fun _ => rfl) ([("BTC", 1)], [("BTC", 5)]) rfl
      (fun _ => none) [] [] ⟨"k", true, false, Except.ok []⟩ rfl
      ⟨"kr", true, true, Except.error "RemoteError2"⟩ "RemoteError2" rfl rfl rfl
      (fun _ => none) rfl⟩

/-! ## Claim C3 -/

/-- Claim C3 counterexample: two assets with equal usd value inserted in
the order ZZ then AA stay in that order in the printed table, because
python sorted is stable and keeps insertion order on ties
(src/buchfink/cli.py line 118); the claimed tie-break by ascending asset
identifier would put AA first, so the claimed ordering fails. -/
theorem c3_counterexample :
    ¬ specTieBreakOrder ((balancesTable (fun _ => 1) 1 c3Accounts).dropLast) := by
  have hd : (balancesTable (fun _ => 1) 1 c3Accounts).dropLast
      = [⟨"ZZ", some 1, 5⟩, ⟨"AA", some 1, 5⟩] := by
    norm_num [balancesTable, c3Accounts, aggregate, processAccount, buildTable,
      sortByValueDesc, valGe, lookupQ, upsertAdd]
  rw [hd]
  intro h
  have h1 := (List.chain'_cons.mp h).1
  rcases h1 with h1 | ⟨h2, h3⟩
  · norm_num at h1
  · rw [String.lt_iff_toList_lt] at h3
    revert h3
    decide

/-- Claim C3 amended: the asset rows of the printed table are sorted by
value descending, with ties keeping the first-encountered dict insertion
order rather than ascending identifier order, and the synthetic Total
row is appended as the final row, holding the sum of the printed row
values. Stated for any positive reporting-currency rate. -/
theorem c3_sorted_total (price : Asset → ℚ) (rate : ℚ) (accounts : List Account)
    (hrate : 0 < rate) :
    List.Sorted (fun r1 r2 : Row => r2.value ≤ r1.value)
      ((balancesTable price rate accounts).dropLast)
    ∧ (balancesTable price rate accounts).getLast?
        = some ⟨"Total", none,
            (((balancesTable price rate accounts).dropLast).map Row.value).sum⟩ :=
  ⟨rows_sorted price rate accounts hrate, buildTable_total rate (aggregate price accounts)⟩

/-- Witness for the amended C3 at the concrete tied input. -/
theorem c3_sorted_total_witness :
    (0:ℚ) < 1
    ∧ (List.Sorted (fun r1 r2 : Row => r2.value ≤ r1.value)
        ((balancesTable (fun _ => 1) 1 c3Accounts).dropLast)
      ∧ (balancesTable (fun _ => 1) 1 c3Accounts).getLast?
          = some ⟨"Total", none,
              (((balancesTable (fun _ => 1) 1 c3Accounts).dropLast).map Row.value).sum⟩) :=
  ⟨by norm_num, c3_sorted_total (fun _ => 1) 1 c3Accounts (by norm_num)⟩

/-! ## Permutation invariance machinery for claim C5 -/

theorem lookupQ_addAmounts_nil (entries : Entries) (a : Asset) :
    lookupQ (addAmounts [] entries) a =
      if a ∈ keysQ entries then some (sumFor a entries) else none := by
  rw [lookupQ_addAmounts]
  rfl

theorem lookupQ_addAmounts_nil_perm {e1 e2 : Entries} (hp : e1.Perm e2) (a : Asset) :
    lookupQ (addAmounts [] e1) a = lookupQ (addAmounts [] e2) a := by
  rw [lookupQ_addAmounts_nil, lookupQ_addAmounts_nil]
  have hmem : (a ∈ keysQ e1) ↔ (a ∈ keysQ e2) := (hp.map Prod.fst).mem_iff
  by_cases hm : a ∈ keysQ e1
  · rw [if_pos hm, if_pos (hmem.mp hm), sumFor_perm a hp]
  · rw [if_neg hm, if_neg (fun hh => hm (hmem.mpr hh))]

theorem keysQ_perm_of_lookupQ_eq {m1 m2 : Entries} (h1 : (keysQ m1).Nodup)
    (h2 : (keysQ m2).Nodup) (h : ∀ a, lookupQ m1 a = lookupQ m2 a) :
    (keysQ m1).Perm (keysQ m2) := by
  rw [List.perm_ext_iff_of_nodup h1 h2]
  intro a
  constructor
  · intro hm
    by_contra hnot
    have hn : lookupQ m2 a = none := (lookupQ_eq_none_iff m2 a).mpr hnot
    rw [← h a] at hn
    exact (lookupQ_eq_none_iff m1 a).mp hn hm
  · intro hm
    by_contra hnot
    have hn : lookupQ m1 a = none := (lookupQ_eq_none_iff m1 a).mpr hnot
    rw [h a] at hn
    exact (lookupQ_eq_none_iff m2 a).mp hn hm

theorem sumValues_perm {e1 e2 : Entries} (h : e1.Perm e2) : sumValues e1 = sumValues e2 :=
  (h.map Prod.snd).sum_eq

theorem table_assets_eq (rate : ℚ) (s : Sums) :
    ((buildTable rate s).dropLast).map Row.asset = (sortByValueDesc s.2).map Prod.fst := by
  rw [buildTable_dropLast, List.map_map, List.map_map]
  exact List.map_congr_left (fun p hp => rfl)

theorem table_values_sum (rate : ℚ) (s : Sums) (hnd : (keysQ s.2).Nodup) :
    (((buildTable rate s).dropLast).map Row.value).sum = sumValues s.2 / rate := by
  have key : (((buildTable rate s).dropLast).map Row.value)
      = (sortByValueDesc s.2).map (fun p => p.2 / rate) := by
    rw [buildTable_dropLast, List.map_map, List.map_map]
    refine List.map_congr_left ?_
    intro p hp
    have hl : lookupQ s.2 p.1 = some p.2 :=
      lookupQ_of_mem_of_nodup _ _ hnd ((List.perm_insertionSort valGe _).mem_iff.mp hp)
    simp [Function.comp, hl]
  rw [key]
  have hperm : ((sortByValueDesc s.2).map (fun p => p.2 / rate)).Perm
      (s.2.map (fun p => p.2 / rate)) := (List.perm_insertionSort valGe s.2).map _
  rw [hperm.sum_eq]
  simp only [div_eq_mul_inv]
  rw [List.sum_map_mul_right]
  rfl

/-! ## Claim C5 -/

/-- Claim C5 counterexample: aggregating the two balance maps in the two
orders gives tables that are not equal: the two assets have equal value
totals, and python sorted keeps the dict insertion order on ties, so the
row order flips with the account order, contradicting the claim of
identical output including row order. -/
theorem c5_counterexample :
    balancesTable (fun _ => 1) 1 [c5M1, c5M2] ≠ balancesTable (fun _ => 1) 1 [c5M2, c5M1] := by
  intro h
  have hA : ((balancesTable (fun _ => 1) 1 [c5M1, c5M2]).map Row.asset)
      = ["AA", "BB", "Total"] := by
    norm_num [balancesTable, c5M1, c5M2, aggregate, processAccount, buildTable,
      sortByValueDesc, valGe, lookupQ, upsertAdd]
  have hB : ((balancesTable (fun _ => 1) 1 [c5M2, c5M1]).map Row.asset)
      = ["BB", "AA", "Total"] := by
    norm_num [balancesTable, c5M1, c5M2, aggregate, processAccount, buildTable,
      sortByValueDesc, valGe, lookupQ, upsertAdd]
  rw [h, hB] at hA
  exact absurd hA (by decide)

/-- Claim C5 amended: aggregation is permutation invariant up to row
order on value ties: for any permutation of the per-account inputs the
per-asset quantity totals and value totals agree pointwise, the asset
column of the table of one order is a permutation of the asset column of
the other, and the synthetic Total row is identical; only the relative
order of rows with equal value totals can differ, since it follows
first-encounter order. -/
theorem c5_perm_invariant (price : Asset → ℚ) (rate : ℚ) (l1 l2 : List Account)
    (hperm : l1.Perm l2) :
    (∀ a, lookupQ (aggregate price l1).1 a = lookupQ (aggregate price l2).1 a)
    ∧ (∀ a, lookupQ (aggregate price l1).2 a = lookupQ (aggregate price l2).2 a)
    ∧ (((balancesTable price rate l1).dropLast).map Row.asset).Perm
        (((balancesTable price rate l2).dropLast).map Row.asset)
    ∧ (balancesTable price rate l1).getLast? = (balancesTable price rate l2).getLast? := by
  have hb := contribsOf_perm balContribs hperm
  have hu := contribsOf_perm (usdContribs price) hperm
  have hl1 : ∀ a, lookupQ (aggregate price l1).1 a = lookupQ (aggregate price l2).1 a := by
    intro a
    rw [aggregate_eq, aggregate_eq]
    exact lookupQ_addAmounts_nil_perm hb a
  have hl2 : ∀ a, lookupQ (aggregate price l1).2 a = lookupQ (aggregate price l2).2 a := by
    intro a
    rw [aggregate_eq, aggregate_eq]
    exact lookupQ_addAmounts_nil_perm hu a
  have hnd1 := nodup_keysQ_aggregate price l1
  have hnd2 := nodup_keysQ_aggregate price l2
  have hkeys : (keysQ (aggregate price l1).2).Perm (keysQ (aggregate price l2).2) :=
    keysQ_perm_of_lookupQ_eq hnd1 hnd2 hl2
  refine ⟨hl1, hl2, ?_, ?_⟩
  · rw [balancesTable, balancesTable, table_assets_eq, table_assets_eq]
    have p1 : ((sortByValueDesc (aggregate price l1).2).map Prod.fst).Perm
        (keysQ (aggregate price l1).2) := (List.perm_insertionSort valGe _).map Prod.fst
    have p2 : ((sortByValueDesc (aggregate price l2).2).map Prod.fst).Perm
        (keysQ (aggregate price l2).2) := (List.perm_insertionSort valGe _).map Prod.fst
    exact (p1.trans hkeys).trans p2.symm
  · rw [balancesTable, balancesTable, buildTable_total, buildTable_total]
    have hv : (((buildTable rate (aggregate price l1)).dropLast).map Row.value).sum
        = (((buildTable rate (aggregate price l2)).dropLast).map Row.value).sum := by
      rw [table_values_sum rate _ hnd1, table_values_sum rate _ hnd2]
      have hs : sumValues (aggregate price l1).2 = sumValues (aggregate price l2).2 := by
        rw [aggregate_eq, aggregate_eq, sumValues_addAmounts, sumValues_addAmounts,
          sumValues_perm hu]
      rw [hs]
    rw [hv]

/-- Witness for the amended C5 at the concrete two-account permutation. -/
theorem c5_perm_invariant_witness :
    ([c5M1, c5M2].Perm [c5M2, c5M1])
    ∧ ((∀ a, lookupQ (aggregate (fun _ => 1) [c5M1, c5M2]).1 a
          = lookupQ (aggregate (fun _ => 1) [c5M2, c5M1]).1 a)
      ∧ (∀ a, lookupQ (aggregate (fun _ => 1) [c5M1, c5M2]).2 a
          = lookupQ (aggregate (fun _ => 1) [c5M2, c5M1]).2 a)
      ∧ (((balancesTable (fun _ => 1) 1 [c5M1, c5M2]).dropLast).map Row.asset).Perm
          (((balancesTable (fun _ => 1) 1 [c5M2, c5M1]).dropLast).map Row.asset)
      ∧ (balancesTable (fun _ => 1) 1 [c5M1, c5M2]).getLast?
          = (balancesTable (fun _ => 1) 1 [c5M2, c5M1]).getLast?) :=
  ⟨List.Perm.swap c5M2 c5M1 [],
    c5_perm_invariant (fun _ => 1) 1 [c5M1, c5M2] [c5M2, c5M1] (List.Perm.swap c5M2 c5M1 [])⟩

end Buchfink
